import Mathlib

/-!
Verification of the routing / middleware-composition engine against its
natural-language specification.

The development shallowly embeds:
- the koa-router `Router` (file `koa-router之router.md`, first document):
  layers, `match`, `use`, `register`, `param`, `route`, `url`, the
  `routes()` dispatch function and `allowedMethods`;
- the koa `Application.handleRequest` (second document in that file);
- redux `applyMiddleware` (file `redux/applyMiddleware.js`).

`layer.js` (`require('./layer')`), `koa-compose` and redux's `compose.js`
are not part of the repository: layers' compiled matchers, capture/param
extraction and URL generation are kept as opaque function fields, and the
few Layer operations the router calls (`setPrefix`, `param`) are modelled
from the specification, marked as such in their doc comments.

Handlers and URL arguments are opaque to the router, so they are embedded
as token types carrying an index; the router never inspects them.
-/

namespace KoaRouter

/-- Parameter map (a JS object from parameter name to decoded value);
the router only threads it through opaque layer functions. -/
abbrev Params := List (String × String)

/-- An opaque middleware/handler function. The router never inspects
handlers, it only stores and orders them. -/
structure Handler where
  idx : Nat
deriving DecidableEq, Repr

/-- An opaque argument forwarded by `Router.url` to a layer's `url`. -/
structure UrlArg where
  idx : Nat
deriving DecidableEq, Repr

/-- An opaque value produced by a layer's `url` method. -/
structure UrlOut where
  idx : Nat
deriving DecidableEq, Repr

/-- Options stored on a Layer (the `opts` object passed to the Layer
constructor): `end`, `name`, `sensitive`, `strict`, `prefix` (field
`pfx` here), `ignoreCaptures`. -/
structure LOpts where
  endOpt : Bool := true
  name : Option String := none
  sensitive : Bool := false
  strict : Bool := false
  pfx : String := ""
  ignoreCaptures : Bool := false
deriving Repr

/-- The behaviour a Layer derives from compiling its pattern with its
options, kept opaque because `layer.js` is not in the repository:
the regexp test, the ordered parameter-name list, the
`captures(path, priorCaptures)` and `params(path, captures, priorParams)`
functions, and `url`. -/
structure Compiled where
  test : String → Bool
  paramNames : List String
  capturesFn : String → List String → List String
  paramsFn : String → List String → Params → Params
  urlFn : List UrlArg → UrlOut

/-- One route/middleware entry: pattern text, accepted methods, handler
list, options, and the compiled behaviour. -/
structure Layer where
  path : String
  methods : List String
  stack : List Handler
  opts : LOpts
  compiled : Compiled

/-- `Layer.prototype.match = function (path) { return this.regexp.test(path) }`. -/
def Layer.matches (l : Layer) (path : String) : Bool :=
  l.compiled.test path

/-- The layer's name (`this.name = this.opts.name`). -/
def layerName (l : Layer) : Option String :=
  l.opts.name

/-- JS truthiness of a string: truthy iff non-empty. -/
def strTruthy (s : String) : Bool :=
  s ≠ ""

/-- JS truthiness of an optional name: defined and non-empty. -/
def nameTruthy (o : Option String) : Bool :=
  match o with
  | some s => strTruthy s
  | none => false

/-- `a || b` for an optional string against a string default. -/
def strOrD (o : Option String) (d : String) : String :=
  match o with
  | some s => if strTruthy s then s else d
  | none => d

/-- A compile function `(pattern, options) -> compiled matcher`: deterministic
translation performed by the absent `layer.js`; the development is
parametric in it. -/
abbrev CompileFn := String → LOpts → Compiled

/-- Result of `Router.prototype.match`: the `matched` object with fields
`path`, `pathAndMethod` and `route`. -/
structure Matched where
  path : List Layer
  pathAndMethod : List Layer
  route : Bool

/-- Router options (`this.opts`): `prefix` (field `pfx`), `sensitive`,
`strict`, `routerPath`. -/
structure RouterOpts where
  pfx : String := ""
  sensitive : Bool := false
  strict : Bool := false
  routerPath : Option String := none

/-- The Router: options, implemented methods (`this.methods`), param
handlers (`this.params`, an insertion-ordered object), and the layer
stack (`this.stack`). -/
structure Router where
  opts : RouterOpts := {}
  methods : List String := ["HEAD", "OPTIONS", "GET", "PUT", "PATCH", "POST", "DELETE"]
  params : List (String × Handler) := []
  stack : List Layer := []

/-- One iteration of the `for` loop in `Router.prototype.match`. -/
def matchStep (path method : String) (m : Matched) (layer : Layer) : Matched :=
  if layer.matches path then
    let m1 : Matched := { m with path := m.path ++ [layer] }
    if layer.methods.length = 0 || layer.methods.contains method then
      { m1 with
        pathAndMethod := m1.pathAndMethod ++ [layer],
        route := if layer.methods.length ≠ 0 then true else m1.route }
    else m1
  else m

/-- `Router.prototype.match(path, method)`: scan the stack in order,
accumulating `path`, `pathAndMethod` and the `route` flag. -/
def Router.matchReq (r : Router) (path method : String) : Matched :=
  r.stack.foldl (matchStep path method) ⟨[], [], false⟩

/-- Predicate for membership in `matched.pathAndMethod`: the layer's
pattern matches and its method set is empty or contains the method. -/
def pmPred (path method : String) (l : Layer) : Bool :=
  l.matches path && (l.methods.isEmpty || l.methods.contains method)

theorem matchReq_go (path method : String) :
    ∀ (ls : List Layer) (acc : Matched),
      ls.foldl (matchStep path method) acc =
        ⟨acc.path ++ ls.filter (fun l => l.matches path),
         acc.pathAndMethod ++ ls.filter (pmPred path method),
         acc.route || (ls.filter (pmPred path method)).any
           (fun l => !l.methods.isEmpty)⟩ := by
  intro ls
  induction ls with
  | nil => intro acc; simp
  | cons l rest ih =>
    intro acc
    rw [List.foldl_cons, ih]
    unfold matchStep pmPred
    by_cases hm : l.matches path
    · simp only [hm, if_true, Bool.true_and]
      by_cases hme : l.methods.isEmpty
      · have hlen : l.methods.length = 0 := by
          simpa [List.isEmpty_iff_length_eq_zero] using hme
        simp [hlen, hme, List.filter_cons, hm]
      · have hlen : ¬ l.methods.length = 0 := by
          simpa [List.isEmpty_iff_length_eq_zero] using hme
        by_cases hc : method ∈ l.methods
        · simp [hlen, hme, hc, List.filter_cons, hm, pmPred]
        · simp [hlen, hme, hc, List.filter_cons, hm, pmPred]
    · simp [hm, List.filter_cons]

theorem matchReq_path (r : Router) (path method : String) :
    (r.matchReq path method).path = r.stack.filter (fun l => l.matches path) := by
  unfold Router.matchReq
  rw [matchReq_go]
  simp

theorem matchReq_pathAndMethod (r : Router) (path method : String) :
    (r.matchReq path method).pathAndMethod =
      r.stack.filter (pmPred path method) := by
  unfold Router.matchReq
  rw [matchReq_go]
  simp

theorem matchReq_route (r : Router) (path method : String) :
    (r.matchReq path method).route =
      (r.matchReq path method).pathAndMethod.any (fun l => !l.methods.isEmpty) := by
  unfold Router.matchReq
  rw [matchReq_go]
  simp

/-- C1. `Router.match` scans the stack in registration order: `pathMatches`
is exactly the sublist (in order) of layers whose `match(path)` is true;
`pathAndMethodMatches` is exactly the sublist of path-matching layers whose
method set is empty or contains the request method; a layer is in
`pathMatches` iff it is a stack layer matching the path, and in
`pathAndMethodMatches` iff additionally its method set is empty or contains
the method; and `routeFound` is true iff some layer of
`pathAndMethodMatches` has a non-empty method set. -/
theorem c1_match_result (r : Router) (path method : String) :
    (r.matchReq path method).path = r.stack.filter (fun l => l.matches path)
    ∧ (r.matchReq path method).pathAndMethod =
        r.stack.filter (fun l =>
          l.matches path && (l.methods.isEmpty || l.methods.contains method))
    ∧ (∀ l : Layer, l ∈ (r.matchReq path method).path ↔
        l ∈ r.stack ∧ l.matches path = true)
    ∧ (∀ l : Layer, l ∈ (r.matchReq path method).pathAndMethod ↔
        l ∈ r.stack ∧ l.matches path = true
          ∧ (l.methods.isEmpty || l.methods.contains method) = true)
    ∧ ((r.matchReq path method).route = true ↔
        ∃ l ∈ (r.matchReq path method).pathAndMethod, l.methods ≠ []) := by
  refine ⟨matchReq_path r path method, ?_, ?_, ?_, ?_⟩
  · rw [matchReq_pathAndMethod]; rfl
  · intro l
    rw [matchReq_path]
    simp [List.mem_filter]
  · intro l
    rw [matchReq_pathAndMethod]
    simp [List.mem_filter, pmPred, Bool.and_eq_true]
  · rw [matchReq_route]
    simp [List.any_eq_true]

/-- The request context façade, restricted to the mutable fields the
router reads and writes (`ctx.method`, `ctx.path`, `ctx.routerPath`,
`ctx.matched`, `ctx.captures`, `ctx.params`, `ctx.routerName`,
`ctx._matchedRoute`, `ctx._matchedRouteName`, `ctx.status`, `ctx.body`
and the header sink written via `ctx.set`). -/
structure Ctx where
  method : String
  path : String
  routerPath : Option String := none
  matched : List Layer := []
  captures : List String := []
  params : Params := []
  routerName : Option String := none
  matchedRoute : Option String := none
  matchedRouteName : Option String := none
  status : Option Nat := none
  body : Option String := none
  headers : List (String × String) := []

/-- One element of the `layerChain` array built in `dispatch`: either the
parameter-binding closure pushed for a layer, or one of that layer's own
handlers. -/
inductive ChainStep where
  | bind (l : Layer)
  | handler (h : Handler)

/-- The state update performed by the parameter-binding closure:
`ctx.captures = layer.captures(path, ctx.captures)`,
`ctx.params = layer.params(path, ctx.captures, ctx.params)` (with the
freshly assigned captures), `ctx.routerName = layer.name`. -/
def bindUpdate (path : String) (l : Layer) (ctx : Ctx) : Ctx :=
  let caps := l.compiled.capturesFn path ctx.captures
  { ctx with
    captures := caps,
    params := l.compiled.paramsFn path caps ctx.params,
    routerName := layerName l }

/-- The `matchedLayers.reduce` of `dispatch`: for each layer push the
binding closure (`memo.push(...)`) then append the layer's handlers
(`memo.concat(layer.stack)`). -/
def layerChain (layers : List Layer) : List ChainStep :=
  layers.foldl
    (fun memo layer =>
      (memo ++ [ChainStep.bind layer]) ++ layer.stack.map ChainStep.handler)
    []

/-- `router.opts.routerPath || ctx.routerPath || ctx.path`. -/
def effectivePath (r : Router) (ctx : Ctx) : String :=
  strOrD r.opts.routerPath (strOrD ctx.routerPath ctx.path)

/-- Outcome of the request handler returned by `routes()`: either it
returns `next()` (delegates to the outer pipeline) with the context as
mutated so far, or it runs the composed layer chain on the context. -/
inductive DispatchRes where
  | delegated (ctx : Ctx)
  | composed (ctx : Ctx) (chain : List ChainStep)

/-- The `dispatch` function returned by `Router.prototype.routes()`:
compute the match, append `matched.path` to `ctx.matched`, return `next()`
when no route was found, otherwise record the most specific layer's path
and (truthy) name on the context and run the composed chain. -/
def Router.dispatchFn (r : Router) (ctx : Ctx) : DispatchRes :=
  let path := effectivePath r ctx
  let matched := r.matchReq path ctx.method
  let ctx1 := { ctx with matched := ctx.matched ++ matched.path }
  if matched.route = false then .delegated ctx1
  else
    match matched.pathAndMethod.getLast? with
    | none => .delegated ctx1
    | some most =>
      let ctx2 :=
        { ctx1 with
          matchedRoute := some most.path,
          matchedRouteName :=
            if nameTruthy (layerName most) then layerName most
            else ctx1.matchedRouteName }
      .composed ctx2 (layerChain matched.pathAndMethod)

theorem layerChain_go :
    ∀ (layers : List Layer) (memo : List ChainStep),
      layers.foldl
        (fun memo layer =>
          (memo ++ [ChainStep.bind layer]) ++ layer.stack.map ChainStep.handler)
        memo =
      memo ++ layers.flatMap
        (fun l => ChainStep.bind l :: l.stack.map ChainStep.handler) := by
  intro layers
  induction layers with
  | nil => intro memo; simp
  | cons l rest ih =>
    intro memo
    rw [List.foldl_cons, ih]
    simp

theorem layerChain_eq_flatMap (layers : List Layer) :
    layerChain layers =
      layers.flatMap (fun l => ChainStep.bind l :: l.stack.map ChainStep.handler) := by
  unfold layerChain
  rw [layerChain_go]
  simp

theorem route_implies_getLast_some (r : Router) (path method : String)
    (h : (r.matchReq path method).route = true) :
    ∃ most, (r.matchReq path method).pathAndMethod.getLast? = some most := by
  have hne : (r.matchReq path method).pathAndMethod ≠ [] := by
    intro hnil
    rw [matchReq_route, hnil] at h
    simp at h
  match hlast : (r.matchReq path method).pathAndMethod.getLast? with
  | none => exact absurd (List.getLast?_eq_none_iff.mp hlast) hne
  | some most => exact ⟨most, rfl⟩

/-- C2. The chain `dispatch` hands to `compose` is built by folding over
`pathAndMethodMatches` in order: it equals the concatenation, layer by
layer, of that layer's binding step followed by that layer's own handlers
(so the chain over `xs ++ ys` is the chain over `xs` followed by the chain
over `ys`: every earlier layer's binding step and handlers precede every
later layer's); the binding step recomputes `ctx.captures` from the
threaded prior captures, decodes `ctx.params` threading the prior params
(against the fresh captures), and tags `ctx.routerName` with the layer's
name; and when a route is found the dispatch function runs exactly this
chain for `pathAndMethodMatches`. -/
theorem c2_chain_order (r : Router) (ctx : Ctx) :
    (∀ layers : List Layer,
      layerChain layers =
        layers.flatMap (fun l => ChainStep.bind l :: l.stack.map ChainStep.handler))
    ∧ (∀ xs ys : List Layer,
        layerChain (xs ++ ys) = layerChain xs ++ layerChain ys)
    ∧ (∀ (path : String) (l : Layer) (c : Ctx),
        bindUpdate path l c =
          { c with
            captures := l.compiled.capturesFn path c.captures,
            params := l.compiled.paramsFn path
              (l.compiled.capturesFn path c.captures) c.params,
            routerName := layerName l })
    ∧ ((r.matchReq (effectivePath r ctx) ctx.method).route = true →
        ∃ c : Ctx, r.dispatchFn ctx =
          .composed c
            (layerChain (r.matchReq (effectivePath r ctx) ctx.method).pathAndMethod)) := by
  refine ⟨layerChain_eq_flatMap, ?_, ?_, ?_⟩
  · intro xs ys
    rw [layerChain_eq_flatMap, layerChain_eq_flatMap, layerChain_eq_flatMap]
    simp
  · intro path l c
    rfl
  · intro hroute
    obtain ⟨most, hlast⟩ := route_implies_getLast_some r _ _ hroute
    refine ⟨{ ctx with
        matched := ctx.matched ++ (r.matchReq (effectivePath r ctx) ctx.method).path,
        matchedRoute := some most.path,
        matchedRouteName :=
          if nameTruthy (layerName most) then layerName most
          else ctx.matchedRouteName }, ?_⟩
    simp only [Router.dispatchFn, hroute, hlast, Bool.true_eq_false, if_false]

/-- C4. The handler returned by `routes()` delegates to the caller's
`next()` exactly when `routeFound` is false (after appending the
path-matching layers to `ctx.matched`); otherwise the last layer of
`pathAndMethodMatches` exists, `ctx._matchedRoute` is set to its path and
`ctx._matchedRouteName` to its name when it has a (truthy) name — left
unchanged otherwise — before the composed chain is executed. -/
theorem c4_dispatch (r : Router) (ctx : Ctx) :
    ((r.matchReq (effectivePath r ctx) ctx.method).route = false →
      r.dispatchFn ctx =
        .delegated { ctx with matched :=
          ctx.matched ++ (r.matchReq (effectivePath r ctx) ctx.method).path })
    ∧ ((r.matchReq (effectivePath r ctx) ctx.method).route = true →
        ∃ most,
          (r.matchReq (effectivePath r ctx) ctx.method).pathAndMethod.getLast? =
            some most
          ∧ r.dispatchFn ctx =
              .composed
                { ctx with
                  matched := ctx.matched ++
                    (r.matchReq (effectivePath r ctx) ctx.method).path,
                  matchedRoute := some most.path,
                  matchedRouteName :=
                    if nameTruthy (layerName most) then layerName most
                    else ctx.matchedRouteName }
                (layerChain
                  (r.matchReq (effectivePath r ctx) ctx.method).pathAndMethod)) := by
  constructor
  · intro hroute
    simp only [Router.dispatchFn, hroute, if_true]
  · intro hroute
    obtain ⟨most, hlast⟩ := route_implies_getLast_some r _ _ hroute
    refine ⟨most, hlast, ?_⟩
    simp only [Router.dispatchFn, hroute, hlast, Bool.true_eq_false, if_false]

/-- `ctx.set(field, value)`: write a response header, overwriting an
existing field of the same name. -/
def setHeader (ctx : Ctx) (k v : String) : Ctx :=
  { ctx with headers :=
      if ctx.headers.any (fun kv => kv.1 = k) then
        ctx.headers.map (fun kv => if kv.1 = k then (k, v) else kv)
      else ctx.headers ++ [(k, v)] }

/-- An opaque value returned by a user-supplied `options.notImplemented`
or `options.methodNotAllowed` function. -/
structure CustomThrow where
  idx : Nat
deriving DecidableEq, Repr

/-- What `allowedMethods` can throw: the default `HttpError.NotImplemented`,
the default `HttpError.MethodNotAllowed`, or whatever a user-supplied
factory returned. -/
inductive Throwable where
  | notImplementedDefault
  | methodNotAllowedDefault
  | custom (t : CustomThrow)
deriving DecidableEq, Repr

/-- Options of `Router.prototype.allowedMethods`: `throw`, and the optional
`notImplemented` / `methodNotAllowed` factory functions (modelled by the
value such a factory returns; `none` means no function was supplied). -/
structure AMOptions where
  throwOpt : Bool := false
  notImplemented : Option CustomThrow := none
  methodNotAllowed : Option CustomThrow := none

/-- Completion of the `allowedMethods` middleware (and of its downstream
`next()`): a settled context or a raised throwable. -/
inductive AMResult where
  | ok (ctx : Ctx)
  | thrown (t : Throwable)

/-- The throwable used in the not-implemented branch. -/
def niThrowable (o : AMOptions) : Throwable :=
  match o.notImplemented with
  | some t => .custom t
  | none => .notImplementedDefault

/-- The throwable used in the method-not-allowed branch. -/
def mnaThrowable (o : AMOptions) : Throwable :=
  match o.methodNotAllowed with
  | some t => .custom t
  | none => .methodNotAllowedDefault

/-- `allowed[method] = method` on a JS object: later writes keep the first
insertion position, `Object.keys` returns insertion order. -/
def addAllowed (acc : List String) (m : String) : List String :=
  if acc.contains m then acc else acc ++ [m]

/-- The `allowed` accumulation of `allowedMethods`: union of the method
sets of all layers in `ctx.matched`, as `Object.keys` order. -/
def computeAllowed (matched : List Layer) : List String :=
  matched.foldl (fun acc l => l.methods.foldl addAllowed acc) []

/-- `!ctx.status || ctx.status === 404`. A set HTTP status is never the
number 0, so JS falsiness of `ctx.status` coincides with the status being
unset. -/
def statusGuard (ctx : Ctx) : Bool :=
  match ctx.status with
  | none => true
  | some s => s == 404

/-- The body of the `.then(...)` callback of `allowedMethods`, applied to
the context after downstream processing settled successfully. -/
def allowedMethodsPost (o : AMOptions) (implemented : List String)
    (ctx : Ctx) : AMResult :=
  if statusGuard ctx then
    let allowedArr := computeAllowed ctx.matched
    if !(implemented.contains ctx.method) then
      if o.throwOpt then .thrown (niThrowable o)
      else .ok (setHeader { ctx with status := some 501 }
        "Allow" (String.intercalate ", " allowedArr))
    else if allowedArr.length ≠ 0 then
      if ctx.method == "OPTIONS" then
        .ok (setHeader { ctx with status := some 200, body := some "" }
          "Allow" (String.intercalate ", " allowedArr))
      else if !(allowedArr.contains ctx.method) then
        if o.throwOpt then .thrown (mnaThrowable o)
        else .ok (setHeader { ctx with status := some 405 }
          "Allow" (String.intercalate ", " allowedArr))
      else .ok ctx
    else .ok ctx
  else .ok ctx

/-- The middleware returned by `Router.prototype.allowedMethods(options)`:
it returns `next().then(...)`, so the body above runs only once the
downstream completes successfully, and a downstream rejection propagates
untouched. `implemented` is captured from `this.methods` at call time. -/
def Router.allowedMethodsFn (r : Router) (o : AMOptions)
    (next : Ctx → AMResult) (ctx : Ctx) : AMResult :=
  match next ctx with
  | .thrown e => .thrown e
  | .ok c => allowedMethodsPost o r.methods c

theorem mem_addAllowed (m x : String) (acc : List String) :
    m ∈ addAllowed acc x ↔ m ∈ acc ∨ m = x := by
  unfold addAllowed
  by_cases hx : acc.contains x
  · have hx2 : x ∈ acc := by simpa using hx
    simp only [hx, if_true]
    constructor
    · exact Or.inl
    · rintro (hm | hm)
      · exact hm
      · exact hm ▸ hx2
  · have hx2 : x ∉ acc := by simpa using hx
    simp [hx2]

theorem mem_foldl_addAllowed (m : String) :
    ∀ (ms acc : List String), m ∈ ms.foldl addAllowed acc ↔ m ∈ acc ∨ m ∈ ms := by
  intro ms
  induction ms with
  | nil => intro acc; simp
  | cons x rest ih =>
    intro acc
    rw [List.foldl_cons, ih, mem_addAllowed]
    simp only [List.mem_cons]
    tauto

theorem mem_computeAllowed (m : String) (matched : List Layer) :
    m ∈ computeAllowed matched ↔ ∃ l ∈ matched, m ∈ l.methods := by
  unfold computeAllowed
  have go : ∀ (ls : List Layer) (acc : List String),
      m ∈ ls.foldl (fun acc l => l.methods.foldl addAllowed acc) acc ↔
        m ∈ acc ∨ ∃ l ∈ ls, m ∈ l.methods := by
    intro ls
    induction ls with
    | nil => intro acc; simp
    | cons l rest ih =>
      intro acc
      rw [List.foldl_cons, ih, mem_foldl_addAllowed]
      simp only [List.mem_cons]
      constructor
      · rintro ((hm | hm) | ⟨l2, hl2, hm⟩)
        · exact Or.inl hm
        · exact Or.inr ⟨l, Or.inl rfl, hm⟩
        · exact Or.inr ⟨l2, Or.inr hl2, hm⟩
      · rintro (hm | ⟨l2, (hl2 | hl2), hm⟩)
        · exact Or.inl (Or.inl hm)
        · exact Or.inl (Or.inr (hl2 ▸ hm))
        · exact Or.inr ⟨l2, hl2, hm⟩
  rw [go]
  simp

/-- C3. The `allowedMethods` handler acts only after `next()` completes
(a downstream rejection propagates untouched; a success is post-processed)
and only when the status is unset or 404 (otherwise the context passes
through unchanged). It computes the union of the method sets of the layers
in `ctx.matched`; when the request method is not implemented it throws the
not-implemented throwable under `options.throw` and otherwise sets 501
with an `Allow` header carrying the union; when the union is non-empty, an
`OPTIONS` request gets 200, empty body and the `Allow` header, and a
method outside the union gets the method-not-allowed throwable under
`options.throw` and otherwise 405 with the `Allow` header. -/
theorem c3_allowed_methods (r : Router) (o : AMOptions) :
    (∀ (next : Ctx → AMResult) (ctx : Ctx) (e : Throwable),
      next ctx = .thrown e → r.allowedMethodsFn o next ctx = .thrown e)
    ∧ (∀ (next : Ctx → AMResult) (ctx c : Ctx),
        next ctx = .ok c →
          r.allowedMethodsFn o next ctx = allowedMethodsPost o r.methods c)
    ∧ (∀ c : Ctx, statusGuard c = false →
        allowedMethodsPost o r.methods c = .ok c)
    ∧ (∀ (c : Ctx) (m : String),
        m ∈ computeAllowed c.matched ↔ ∃ l ∈ c.matched, m ∈ l.methods)
    ∧ (∀ c : Ctx, statusGuard c = true →
        r.methods.contains c.method = false →
          allowedMethodsPost o r.methods c =
            (if o.throwOpt then .thrown (niThrowable o)
             else .ok (setHeader { c with status := some 501 } "Allow"
               (String.intercalate ", " (computeAllowed c.matched)))))
    ∧ (∀ c : Ctx, statusGuard c = true →
        r.methods.contains c.method = true →
          computeAllowed c.matched ≠ [] →
            c.method = "OPTIONS" →
              allowedMethodsPost o r.methods c =
                .ok (setHeader { c with status := some 200, body := some "" }
                  "Allow" (String.intercalate ", " (computeAllowed c.matched))))
    ∧ (∀ c : Ctx, statusGuard c = true →
        r.methods.contains c.method = true →
          computeAllowed c.matched ≠ [] →
            c.method ≠ "OPTIONS" →
              (computeAllowed c.matched).contains c.method = false →
                allowedMethodsPost o r.methods c =
                  (if o.throwOpt then .thrown (mnaThrowable o)
                   else .ok (setHeader { c with status := some 405 } "Allow"
                     (String.intercalate ", " (computeAllowed c.matched))))) := by
  refine ⟨?_, ?_, ?_, ?_, ?_, ?_, ?_⟩
  · intro next ctx e hnext
    unfold Router.allowedMethodsFn
    rw [hnext]
  · intro next ctx c hnext
    unfold Router.allowedMethodsFn
    rw [hnext]
  · intro c hguard
    unfold allowedMethodsPost
    rw [hguard]
    simp
  · intro c m
    exact mem_computeAllowed m c.matched
  · intro c hguard himpl
    unfold allowedMethodsPost
    rw [hguard, himpl]
    simp
  · intro c hguard himpl hne hopt
    unfold allowedMethodsPost
    rw [hguard, himpl]
    simp only [Bool.not_true, if_true, if_false, Bool.false_eq_true]
    have hlen : (computeAllowed c.matched).length ≠ 0 := by
      simpa [List.length_eq_zero] using hne
    simp [hlen, hopt]
  · intro c hguard himpl hne hopt hcont
    unfold allowedMethodsPost
    rw [hguard, himpl]
    have hlen : (computeAllowed c.matched).length ≠ 0 := by
      simpa [List.length_eq_zero] using hne
    simp only [hlen, hopt]
    simp [hlen, hopt, hcont]
    intro hmem
    exact absurd hmem (by simpa using hcont)

/-- The loop predicate of `Router.prototype.route(name)`:
`routes[i].name && routes[i].name === name`. -/
def nameMatchPred (name : String) (l : Layer) : Bool :=
  nameTruthy (layerName l) && (layerName l == some name)

/-- `Router.prototype.route(name)`: linear scan of the stack, returning
the first layer whose name is truthy and equals `name` (`false`, here
`none`, when absent). -/
def Router.route (r : Router) (name : String) : Option Layer :=
  r.stack.find? (nameMatchPred name)

/-- Result of `Router.prototype.url`: either the value produced by the
named layer's `url`, or the returned (not thrown) `Error` value. -/
inductive UrlRes where
  | fromLayer (u : UrlOut)
  | noRoute (msg : String)
deriving DecidableEq, Repr

/-- `Router.prototype.url(name, ...args)`: resolve the name via `route`,
delegate to the layer's `url`, or return an `Error` value describing the
missing route name. -/
def Router.url (r : Router) (name : String) (args : List UrlArg) : UrlRes :=
  match r.route name with
  | some l => .fromLayer (l.compiled.urlFn args)
  | none => .noRoute ("No route found for name: " ++ name)

theorem find?_first {α : Type} (p : α → Bool) :
    ∀ (l : List α) (x : α), l.find? p = some x →
      p x = true ∧ ∃ pre post, l = pre ++ x :: post
        ∧ ∀ y ∈ pre, p y = false := by
  intro l
  induction l with
  | nil => intro x hx; simp at hx
  | cons a rest ih =>
    intro x hx
    by_cases ha : p a
    · rw [List.find?_cons_of_pos _ ha] at hx
      cases hx
      exact ⟨ha, [], rest, rfl, by simp⟩
    · rw [List.find?_cons_of_neg _ ha] at hx
      obtain ⟨hpx, pre, post, hsplit, hpre⟩ := ih x hx
      refine ⟨hpx, a :: pre, post, by rw [hsplit]; rfl, ?_⟩
      intro y hy
      rcases List.mem_cons.mp hy with hy | hy
      · rw [hy]; exact Bool.not_eq_true _ ▸ (by simpa using ha)
      · exact hpre y hy

/-- C7. `Router.url` resolves the route name by a linear scan returning
the first layer whose (truthy) name equals the given name — so with
duplicate names the first-registered layer wins — and delegates URL
generation to that layer's `url`; when no stack layer carries the name it
returns (does not throw) an `Error` value describing the missing route
name. -/
theorem c7_url_by_name (r : Router) (name : String) (args : List UrlArg) :
    (∀ l : Layer, r.route name = some l →
        nameMatchPred name l = true
        ∧ (∃ pre post, r.stack = pre ++ l :: post
            ∧ ∀ l2 ∈ pre, nameMatchPred name l2 = false)
        ∧ r.url name args = .fromLayer (l.compiled.urlFn args))
    ∧ (r.route name = none ↔ ∀ l ∈ r.stack, nameMatchPred name l = false)
    ∧ (r.route name = none →
        r.url name args = .noRoute ("No route found for name: " ++ name)) := by
  refine ⟨?_, ?_, ?_⟩
  · intro l hl
    obtain ⟨hp, pre, post, hsplit, hpre⟩ := find?_first (nameMatchPred name) r.stack l hl
    refine ⟨hp, ⟨pre, post, hsplit, hpre⟩, ?_⟩
    unfold Router.url
    rw [hl]
  · unfold Router.route
    rw [List.find?_eq_none]
    constructor
    · intro h l hl
      simpa using h l hl
    · intro h l hl
      simp [h l hl]
  · intro h
    unfold Router.url
    rw [h]

/-- Modelled from the spec: the Layer constructor lives in `layer.js`,
which is not under `src/`. Per the spec's data model, a Layer stores the
pattern, the method set, the ordered handler list, its options, and the
matcher/parameter-name list compiled deterministically from
pattern + options (the `CompileFn` argument stands for that compilation). -/
def mkLayer (compile : CompileFn) (path : String) (ms : List String)
    (hs : List Handler) (o : LOpts) : Layer :=
  { path := path, methods := ms, stack := hs, opts := o,
    compiled := compile path o }

/-- Modelled from the spec: `setPrefix` lives in `layer.js`, which is not
under `src/`. Per the spec, it rewrites the pattern to
`prefix + pattern` and recompiles the matcher. -/
def Layer.setPfx (compile : CompileFn) (p : String) (l : Layer) : Layer :=
  { l with path := p ++ l.path, compiled := compile (p ++ l.path) l.opts }

/-- Modelled from the spec: `Layer.prototype.param` lives in `layer.js`,
which is not under `src/`. Per the spec's `attachParamHandler`, when the
name is among this layer's `paramNames` the validation handler is added
in front of the existing handler list; otherwise the layer is unchanged. -/
def Layer.paramAttach (name : String) (mw : Handler) (l : Layer) : Layer :=
  if l.compiled.paramNames.contains name then { l with stack := mw :: l.stack }
  else l

/-- `this.params[param] = middleware` on the router's params object:
overwrite in place when the key exists, append otherwise. -/
def assocSet (m : List (String × Handler)) (k : String) (v : Handler) :
    List (String × Handler) :=
  if m.any (fun kv => kv.1 = k) then
    m.map (fun kv => if kv.1 = k then (k, v) else kv)
  else m ++ [(k, v)]

/-- `Router.prototype.param(param, middleware)`: store the handler and
retroactively attach it to every layer currently in the stack. -/
def Router.param (r : Router) (name : String) (mw : Handler) : Router :=
  { r with
    params := assocSet r.params name mw,
    stack := r.stack.map (Layer.paramAttach name mw) }

/-- Options accepted by `Router.prototype.register` (fields absent in JS
are `none`). `pfx` is the `prefix` option. -/
structure RegOpts where
  endOpt : Option Bool := none
  name : Option String := none
  sensitive : Option Bool := none
  strict : Option Bool := none
  pfx : Option String := none
  ignoreCaptures : Option Bool := none

/-- `Router.prototype.register(path, methods, middleware, opts)` for a
single (non-array) path: build the Layer with the router's defaults merged
in (`end: opts.end === false ? opts.end : true`, sensitivity/strictness
or-ed with the router's, `prefix: opts.prefix || this.opts.prefix || ""`),
apply `setPrefix` when the router has a truthy prefix, attach every
registered param handler, and push the layer. Returns the updated router
and the created layer. -/
def Router.register1 (compile : CompileFn) (r : Router) (path : String)
    (ms : List String) (hs : List Handler) (o : RegOpts) : Router × Layer :=
  let lo : LOpts :=
    { endOpt := if o.endOpt = some false then false else true,
      name := o.name,
      sensitive := o.sensitive.getD false || r.opts.sensitive,
      strict := o.strict.getD false || r.opts.strict,
      pfx := strOrD o.pfx r.opts.pfx,
      ignoreCaptures := o.ignoreCaptures.getD false }
  let route0 := mkLayer compile path ms hs lo
  let route1 :=
    if strTruthy r.opts.pfx then Layer.setPfx compile r.opts.pfx route0
    else route0
  let route2 := r.params.foldl (fun l kv => Layer.paramAttach kv.1 kv.2 l) route1
  ({ r with stack := r.stack ++ [route2] }, route2)

/-- A middleware argument of `Router.prototype.use`: a plain middleware
function, or a pre-built sub-router's dispatch function (detected via its
`router` property). -/
inductive UseMw where
  | plain (h : Handler)
  | sub (r : Router)

/-- The `m.router` branch of `use`: every layer of the sub-router's stack
gets `setPrefix(path)` when a truthy path was given, then
`setPrefix(this.opts.prefix)` when the mounting router has a truthy
prefix, and is pushed onto the mounting router's stack; afterwards every
param handler of the mounting router is propagated into the sub-router via
its `param` method. The layers are pushed by reference, so the propagation
(which also touches the sub-router's layers) is visible through both
routers' stacks: the parent receives exactly the sub-router's final
layers. Returns (mounting router, sub-router) in their final states. -/
def Router.spliceSub (compile : CompileFn) (r : Router) (path : Option String)
    (sub : Router) : Router × Router :=
  let prefixed := sub.stack.map (fun l =>
    let l1 := match path with
      | some p => if strTruthy p then Layer.setPfx compile p l else l
      | none => l
    if strTruthy r.opts.pfx then Layer.setPfx compile r.opts.pfx l1 else l1)
  let sub1 : Router := { sub with stack := prefixed }
  let sub2 := r.params.foldl (fun s kv => Router.param s kv.1 kv.2) sub1
  ({ r with stack := r.stack ++ sub2.stack }, sub2)

/-- The non-array form of `Router.prototype.use`: `path` is `some s` when
a string first argument was given (`hasPath`), `none` otherwise. Each
middleware is either spliced (sub-router) or registered via
`register(path || "(.*)", [], m, { end: false, ignoreCaptures: !hasPath })`. -/
def Router.useOne (compile : CompileFn) (r : Router) (path : Option String)
    (mws : List UseMw) : Router :=
  mws.foldl
    (fun acc m =>
      match m with
      | .sub s => (Router.spliceSub compile acc path s).1
      | .plain h =>
        (Router.register1 compile acc (strOrD path "(.*)") [] [h]
          { endOpt := some false,
            ignoreCaptures := some (path = none) }).1)
    r

/-- The first argument of `Router.prototype.use`: an array of literal
paths whose first element is a string, a single string path, or no path
at all. -/
inductive UseFirst where
  | pathList (p : String) (ps : List String)
  | pathStr (p : String)
  | noPath

/-- `Router.prototype.use`: with an array of paths it fans out to one
`use` call per path with the same middleware list; otherwise it behaves
as `useOne`. -/
def Router.use (compile : CompileFn) (r : Router) (first : UseFirst)
    (mws : List UseMw) : Router :=
  match first with
  | .pathList p ps =>
    (p :: ps).foldl (fun acc q => Router.useOne compile acc (some q) mws) r
  | .pathStr p => Router.useOne compile r (some p) mws
  | .noPath => Router.useOne compile r none mws

/-- The prefix transformation applied to one spliced layer: mount path
first (when truthy), then the mounting router's own prefix (when truthy). -/
def mountTransform (compile : CompileFn) (path : Option String)
    (pfxStr : String) (l : Layer) : Layer :=
  let l1 := match path with
    | some p => if strTruthy p then Layer.setPfx compile p l else l
    | none => l
  if strTruthy pfxStr then Layer.setPfx compile pfxStr l1 else l1

theorem foldl_routerParam_stack (ps : List (String × Handler)) :
    ∀ (s : Router),
      (ps.foldl (fun s kv => Router.param s kv.1 kv.2) s).stack =
        s.stack.map (fun l =>
          ps.foldl (fun l kv => Layer.paramAttach kv.1 kv.2 l) l) := by
  induction ps with
  | nil => intro s; simp
  | cons kv rest ih =>
    intro s
    rw [List.foldl_cons, ih]
    unfold Router.param
    simp [List.map_map, Function.comp]

theorem foldl_routerParam_params (ps : List (String × Handler)) :
    ∀ (s : Router),
      (ps.foldl (fun s kv => Router.param s kv.1 kv.2) s).params =
        ps.foldl (fun m kv => assocSet m kv.1 kv.2) s.params := by
  induction ps with
  | nil => intro s; simp
  | cons kv rest ih =>
    intro s
    rw [List.foldl_cons, ih]
    rfl

/-- C5. Splicing a pre-built sub-router: the mounting router's final stack
is its old stack followed, in order, by the sub-router's layers, each
transformed by `setPrefix` with the mount path first (when one was given)
and the mounting router's own prefix second (when set), and then receiving
every param handler registered on the mounting router; those pushed layers
are the very layers of the sub-router's final stack (push by reference),
and every param handler of the mounting router is propagated into the
sub-router's params map. -/
theorem c5_splice_subrouter (compile : CompileFn) (r sub : Router)
    (path : Option String) :
    (Router.spliceSub compile r path sub).1.stack =
      r.stack ++ sub.stack.map (fun l =>
        r.params.foldl (fun l kv => Layer.paramAttach kv.1 kv.2 l)
          (mountTransform compile path r.opts.pfx l))
    ∧ (Router.spliceSub compile r path sub).2.stack =
        sub.stack.map (fun l =>
          r.params.foldl (fun l kv => Layer.paramAttach kv.1 kv.2 l)
            (mountTransform compile path r.opts.pfx l))
    ∧ (Router.spliceSub compile r path sub).1.stack =
        r.stack ++ (Router.spliceSub compile r path sub).2.stack
    ∧ (Router.spliceSub compile r path sub).2.params =
        r.params.foldl (fun m kv => assocSet m kv.1 kv.2) sub.params := by
  have hstack :
      (Router.spliceSub compile r path sub).2.stack =
        sub.stack.map (fun l =>
          r.params.foldl (fun l kv => Layer.paramAttach kv.1 kv.2 l)
            (mountTransform compile path r.opts.pfx l)) := by
    unfold Router.spliceSub
    rw [foldl_routerParam_stack]
    simp [List.map_map, Function.comp, mountTransform]
  have hparams :
      (Router.spliceSub compile r path sub).2.params =
        r.params.foldl (fun m kv => assocSet m kv.1 kv.2) sub.params := by
    unfold Router.spliceSub
    rw [foldl_routerParam_params]
  have hparent :
      (Router.spliceSub compile r path sub).1.stack =
        r.stack ++ (Router.spliceSub compile r path sub).2.stack := by
    unfold Router.spliceSub
    rfl
  exact ⟨by rw [hparent, hstack], hstack, hparent, hparams⟩

theorem paramAttach_path (k : String) (mw : Handler) (l : Layer) :
    (Layer.paramAttach k mw l).path = l.path := by
  unfold Layer.paramAttach; split <;> rfl

theorem paramAttach_methods (k : String) (mw : Handler) (l : Layer) :
    (Layer.paramAttach k mw l).methods = l.methods := by
  unfold Layer.paramAttach; split <;> rfl

theorem paramAttach_opts (k : String) (mw : Handler) (l : Layer) :
    (Layer.paramAttach k mw l).opts = l.opts := by
  unfold Layer.paramAttach; split <;> rfl

theorem paramFold_path (ps : List (String × Handler)) :
    ∀ l : Layer,
      (ps.foldl (fun l kv => Layer.paramAttach kv.1 kv.2 l) l).path = l.path := by
  induction ps with
  | nil => intro l; rfl
  | cons kv rest ih =>
    intro l
    rw [List.foldl_cons]
    exact (ih (Layer.paramAttach kv.1 kv.2 l)).trans (paramAttach_path _ _ _)

theorem paramFold_methods (ps : List (String × Handler)) :
    ∀ l : Layer,
      (ps.foldl (fun l kv => Layer.paramAttach kv.1 kv.2 l) l).methods =
        l.methods := by
  induction ps with
  | nil => intro l; rfl
  | cons kv rest ih =>
    intro l
    rw [List.foldl_cons]
    exact (ih (Layer.paramAttach kv.1 kv.2 l)).trans (paramAttach_methods _ _ _)

theorem paramFold_opts (ps : List (String × Handler)) :
    ∀ l : Layer,
      (ps.foldl (fun l kv => Layer.paramAttach kv.1 kv.2 l) l).opts = l.opts := by
  induction ps with
  | nil => intro l; rfl
  | cons kv rest ih =>
    intro l
    rw [List.foldl_cons]
    exact (ih (Layer.paramAttach kv.1 kv.2 l)).trans (paramAttach_opts _ _ _)

theorem register1_snd_methods (compile : CompileFn) (r : Router)
    (path : String) (ms : List String) (hs : List Handler) (o : RegOpts) :
    (Router.register1 compile r path ms hs o).2.methods = ms := by
  unfold Router.register1
  dsimp only
  rw [paramFold_methods]
  split <;> rfl

theorem register1_snd_opts (compile : CompileFn) (r : Router)
    (path : String) (ms : List String) (hs : List Handler) (o : RegOpts) :
    (Router.register1 compile r path ms hs o).2.opts =
      { endOpt := if o.endOpt = some false then false else true,
        name := o.name,
        sensitive := o.sensitive.getD false || r.opts.sensitive,
        strict := o.strict.getD false || r.opts.strict,
        pfx := strOrD o.pfx r.opts.pfx,
        ignoreCaptures := o.ignoreCaptures.getD false } := by
  unfold Router.register1
  dsimp only
  rw [paramFold_opts]
  split <;> rfl

theorem register1_snd_path (compile : CompileFn) (r : Router)
    (path : String) (ms : List String) (hs : List Handler) (o : RegOpts) :
    (Router.register1 compile r path ms hs o).2.path =
      (if strTruthy r.opts.pfx then r.opts.pfx ++ path else path) := by
  unfold Router.register1
  dsimp only
  rw [paramFold_path]
  split <;> rfl

/-- The registration facts about the layer `use` creates for one plain
middleware, in terms of the mounting router's options. -/
def plainLayerProp (r : Router) (path : Option String) (l : Layer) : Prop :=
  l.methods = []
  ∧ l.opts.endOpt = false
  ∧ l.opts.ignoreCaptures = (path = none)
  ∧ l.path =
      (if strTruthy r.opts.pfx then r.opts.pfx ++ strOrD path "(.*)"
       else strOrD path "(.*)")

theorem register1_plain_layer (compile : CompileFn) (r : Router)
    (path : Option String) (h : Handler) :
    plainLayerProp r path
      (Router.register1 compile r (strOrD path "(.*)") [] [h]
        { endOpt := some false, ignoreCaptures := some (path = none) }).2 := by
  unfold plainLayerProp
  refine ⟨register1_snd_methods _ _ _ _ _ _, ?_, ?_, register1_snd_path _ _ _ _ _ _⟩
  · rw [register1_snd_opts]
    simp
  · rw [register1_snd_opts]
    simp

theorem register1_opts (compile : CompileFn) (r : Router) (path : String)
    (ms : List String) (hs : List Handler) (o : RegOpts) :
    (Router.register1 compile r path ms hs o).1.opts = r.opts
    ∧ (Router.register1 compile r path ms hs o).1.params = r.params
    ∧ (Router.register1 compile r path ms hs o).1.stack =
        r.stack ++ [(Router.register1 compile r path ms hs o).2] := by
  exact ⟨rfl, rfl, rfl⟩

theorem useOne_plain_go (compile : CompileFn) (path : Option String) :
    ∀ (hs : List Handler) (r : Router),
      ∃ ls, (Router.useOne compile r path (hs.map UseMw.plain)).stack = r.stack ++ ls
        ∧ ls.length = hs.length
        ∧ ∀ l ∈ ls, plainLayerProp r path l := by
  intro hs
  induction hs with
  | nil =>
    intro r
    exact ⟨[], by simp [Router.useOne], rfl, by simp⟩
  | cons h rest ih =>
    intro r
    have hstep :
        Router.useOne compile r path ((h :: rest).map UseMw.plain) =
          Router.useOne compile
            (Router.register1 compile r (strOrD path "(.*)") [] [h]
              { endOpt := some false, ignoreCaptures := some (path = none) }).1
            path (rest.map UseMw.plain) := rfl
    obtain ⟨ls, hst, hlen, hprop⟩ :=
      ih (Router.register1 compile r (strOrD path "(.*)") [] [h]
        { endOpt := some false, ignoreCaptures := some (path = none) }).1
    refine ⟨(Router.register1 compile r (strOrD path "(.*)") [] [h]
      { endOpt := some false, ignoreCaptures := some (path = none) }).2 :: ls,
      ?_, by simp [hlen], ?_⟩
    · rw [hstep, hst,
        (register1_opts compile r (strOrD path "(.*)") [] [h]
          { endOpt := some false, ignoreCaptures := some (path = none) }).2.2]
      simp
    · intro l hl
      rcases List.mem_cons.mp hl with hl | hl
      · rw [hl]
        exact register1_plain_layer compile r path h
      · exact hprop l hl

/-- C8. When the first argument of `use` is an array of path strings, `use`
fans out to one `use` call per listed path with the same middleware list;
and a list of plain middleware is registered as one Layer each, in order,
with an empty method set, option `end` false, `ignoreCaptures` set exactly
when no explicit path string was given, and pattern
`path || "(.*)"` (prefixed by the router's own prefix when that is set). -/
theorem c8_use_plain (compile : CompileFn) (r : Router) (p : String)
    (ps : List String) (mws : List UseMw) (path : Option String)
    (hs : List Handler) :
    Router.use compile r (.pathList p ps) mws =
      (p :: ps).foldl (fun acc q => Router.use compile acc (.pathStr q) mws) r
    ∧ (∃ ls, (Router.useOne compile r path (hs.map UseMw.plain)).stack =
          r.stack ++ ls
        ∧ ls.length = hs.length
        ∧ ∀ l ∈ ls,
            l.methods = []
            ∧ l.opts.endOpt = false
            ∧ l.opts.ignoreCaptures = (path = none)
            ∧ l.path =
                (if strTruthy r.opts.pfx then r.opts.pfx ++ strOrD path "(.*)"
                 else strOrD path "(.*)")) := by
  constructor
  · rfl
  · obtain ⟨ls, hst, hlen, hprop⟩ := useOne_plain_go compile path hs r
    exact ⟨ls, hst, hlen, fun l hl => hprop l hl⟩

/-- A concrete compile function for evaluating the development on sample
routers: the matcher accepts exactly the pattern text. -/
def sampleCompile : CompileFn := fun path _ =>
  { test := fun p => p == path,
    paramNames := [],
    capturesFn := fun _ prior => prior,
    paramsFn := fun _ _ prior => prior,
    urlFn := fun _ => ⟨0⟩ }

/-- A sample route layer: `GET /x`, named "user", one handler. -/
def sampleLayer : Layer :=
  { path := "/x", methods := ["GET"], stack := [⟨1⟩],
    opts := { name := some "user" },
    compiled := sampleCompile "/x" { name := some "user" } }

/-- A sample router with only `GET /x` registered. -/
def sampleRouter : Router := { stack := [sampleLayer] }

/-- A sample `GET /x` request context. -/
def sampleCtxGet : Ctx := { method := "GET", path := "/x" }

/-- A sample `POST /x` request context (wrong verb for the sample router). -/
def sampleCtxPost : Ctx := { method := "POST", path := "/x" }

/-- A sample `OPTIONS /x` context after dispatch accumulated the matched
layers. -/
def sampleCtxOptions : Ctx :=
  { method := "OPTIONS", path := "/x", matched := [sampleLayer] }

theorem c2_chain_order_witness :
    ∃ c : Ctx, sampleRouter.dispatchFn sampleCtxGet =
      DispatchRes.composed c
        (layerChain (sampleRouter.matchReq
          (effectivePath sampleRouter sampleCtxGet)
          sampleCtxGet.method).pathAndMethod) :=
  (c2_chain_order sampleRouter sampleCtxGet).2.2.2 (by rfl)

theorem c3_allowed_methods_witness :
    allowedMethodsPost {} sampleRouter.methods sampleCtxOptions =
      .ok (setHeader
        { sampleCtxOptions with status := some 200, body := some "" }
        "Allow" (String.intercalate ", " (computeAllowed sampleCtxOptions.matched))) :=
  (c3_allowed_methods sampleRouter {}).2.2.2.2.2.1 sampleCtxOptions
    (by rfl) (by rfl) (by decide) (by rfl)

theorem c4_dispatch_witness :
    sampleRouter.dispatchFn sampleCtxPost =
      DispatchRes.delegated { sampleCtxPost with
        matched := sampleCtxPost.matched ++
          (sampleRouter.matchReq (effectivePath sampleRouter sampleCtxPost)
            sampleCtxPost.method).path } :=
  (c4_dispatch sampleRouter sampleCtxPost).1 (by rfl)

theorem c7_url_by_name_witness :
    nameMatchPred "user" sampleLayer = true
    ∧ (∃ pre post, sampleRouter.stack = pre ++ sampleLayer :: post
        ∧ ∀ l2 ∈ pre, nameMatchPred "user" l2 = false)
    ∧ sampleRouter.url "user" [] = .fromLayer (sampleLayer.compiled.urlFn []) :=
  (c7_url_by_name sampleRouter "user" []).1 sampleLayer (by rfl)

theorem c8_use_plain_witness :
    ∃ ls, (Router.useOne sampleCompile sampleRouter none
        ([Handler.mk 7].map UseMw.plain)).stack = sampleRouter.stack ++ ls
      ∧ ls.length = [Handler.mk 7].length
      ∧ ∀ l ∈ ls,
          l.methods = []
          ∧ l.opts.endOpt = false
          ∧ l.opts.ignoreCaptures = ((none : Option String) = none)
          ∧ l.path =
              (if strTruthy sampleRouter.opts.pfx then
                sampleRouter.opts.pfx ++ strOrD none "(.*)"
               else strOrD none "(.*)") :=
  (c8_use_plain sampleCompile sampleRouter "/a" [] [] none [⟨7⟩]).2

end KoaRouter

namespace KoaApp

/-- The per-request state seen by `Application.handleRequest`: the
response's `statusCode` plus everything else the middleware may read or
write, abstracted as `rest`. -/
structure KCtx (ρ : Type) where
  statusCode : Nat
  rest : ρ

/-- How a request's lifecycle settles: exactly one response write
(`respond(ctx)` on the pipeline's success) or one invocation of the
context's error handler (`ctx.onerror(err)` on its failure). -/
inductive Outcome (ρ ε : Type) where
  | wrote (ctx : KCtx ρ)
  | errored (e : ε)

/-- `Application.handleRequest(ctx, fnMiddleware)`: set
`res.statusCode = 404` first, then run the composed middleware pipeline
(`fnMiddleware` maps the context state to a final state or a failure) and
`then(handleResponse).catch(onerror)` its completion. The pipeline's final
context state is what `respond` writes. -/
def handleRequest {ρ ε : Type} (ctx : KCtx ρ)
    (fn : KCtx ρ → Except ε (KCtx ρ)) : Outcome ρ ε :=
  match fn { ctx with statusCode := 404 } with
  | .ok c => .wrote c
  | .error e => .errored e

/-- C9. `handleRequest` puts the response into the not-found state before
running the pipeline: its outcome depends on the pipeline only through the
pipeline's behaviour on the 404-initialized context; a pipeline that
leaves the context untouched completes with the default 404 write; and
once the pipeline settles, success performs the response write with the
pipeline's final context and failure invokes the error handler with the
pipeline's error. -/
theorem c9_handle_request {ρ ε : Type} (ctx : KCtx ρ)
    (fn fn2 : KCtx ρ → Except ε (KCtx ρ)) :
    (fn { ctx with statusCode := 404 } = fn2 { ctx with statusCode := 404 } →
      handleRequest ctx fn = handleRequest ctx fn2)
    ∧ ((∀ c, fn c = .ok c) →
        handleRequest ctx fn = .wrote { ctx with statusCode := 404 })
    ∧ (∀ c, fn { ctx with statusCode := 404 } = .ok c →
        handleRequest ctx fn = .wrote c)
    ∧ (∀ e, fn { ctx with statusCode := 404 } = .error e →
        handleRequest ctx fn = .errored e) := by
  refine ⟨?_, ?_, ?_, ?_⟩
  · intro heq
    unfold handleRequest
    rw [heq]
  · intro hid
    unfold handleRequest
    rw [hid]
  · intro c hc
    unfold handleRequest
    rw [hc]
  · intro e he
    unfold handleRequest
    rw [he]

/-- A sample request context for evaluating `handleRequest`. -/
def sampleKCtx : KCtx Unit := { statusCode := 0, rest := () }

theorem c9_handle_request_witness :
    handleRequest sampleKCtx
        (fun c => (Except.ok c : Except Unit (KCtx Unit))) =
      Outcome.wrote { sampleKCtx with statusCode := 404 } :=
  (c9_handle_request sampleKCtx (fun c => Except.ok c)
    (fun c => Except.ok c)).2.1 (fun _ => rfl)

end KoaApp

namespace Redux

/-- The failure thrown by the placeholder dispatch installed while the
middleware chain is being constructed. -/
inductive DErr where
  | dispatchWhileConstructing
deriving DecidableEq, Repr

/-- A dispatch function: an action in, the completed action or a raised
failure out. -/
abbrev Dispatch (α : Type) := α → Except DErr α

/-- The contents of the mutable `dispatch` variable of `applyMiddleware`
at a given point in time: still the throwing placeholder (construction in
progress), or already reassigned to the final composed dispatch. -/
inductive Phase (α : Type) where
  | constructing
  | done (final : Dispatch α)

/-- The closure `(...args) => dispatch(...args)` exposed as
`middlewareAPI.dispatch`: it reads the mutable `dispatch` variable at call
time, so its behaviour is a function of the phase in which it is invoked. -/
def apiDispatch {α : Type} (ph : Phase α) : Dispatch α :=
  match ph with
  | .constructing => fun _ => .error .dispatchWhileConstructing
  | .done final => final

/-- The `middlewareAPI` object handed to every middleware. -/
structure MiddlewareAPI (σ α : Type) where
  getState : Unit → σ
  dispatch : Phase α → Dispatch α

/-- A redux middleware: `api => next => action => ...`. -/
def Middleware (σ α : Type) :=
  MiddlewareAPI σ α → Dispatch α → Dispatch α

/-- Modelled from the spec: `./compose` (redux `compose.js`) is not under
`src/`. Per the spec's composition rule for the store-enhancer helper,
the ordered transform list is folded with left-to-right wrapping and
right-to-left execution: the last transform is the innermost wrapper
around the base function, so `compose [f, g, h] = f ∘ g ∘ h`. -/
def composeFns {β : Type} (fs : List (β → β)) : β → β :=
  fs.foldr (fun f g => f ∘ g) id

/-- The store: `dispatch` plus all other fields (`getState`, `subscribe`,
`replaceReducer`, ...), the latter abstracted as `getState` and an opaque
`rest`. -/
structure Store (σ α ρ : Type) where
  getState : Unit → σ
  dispatch : Dispatch α
  rest : ρ

/-- `applyMiddleware(...middlewares)(createStore)(...args)`: `createStore`
is external to the repository, so the enhancer is modelled on the base
store it builds. The middleware chain is mapped over the `middlewareAPI`
(whose `dispatch` is the phase-reading closure), composed, and applied to
the base dispatch; the result spreads the base store with only `dispatch`
replaced. The `middlewareAPI` is returned alongside for inspection. -/
def applyMiddleware {σ α ρ : Type} (mws : List (Middleware σ α))
    (store : Store σ α ρ) : Store σ α ρ × MiddlewareAPI σ α :=
  let api : MiddlewareAPI σ α :=
    { getState := store.getState, dispatch := apiDispatch }
  let chain := mws.map (fun m => m api)
  let final := composeFns chain store.dispatch
  ({ store with dispatch := final }, api)

/-- C6. Any invocation of `middlewareAPI.dispatch` made while the chain is
still being constructed (the mutable `dispatch` variable still holds the
placeholder, phase `constructing`) raises the
dispatching-while-constructing failure; once construction has finished,
the returned store's dispatch is the composition of the mapped middleware
chain applied to the base store's dispatch, and `middlewareAPI.dispatch`
invoked then (phase `done` with the final dispatch) agrees with it. -/
theorem c6_dispatch_phases {σ α ρ : Type} (mws : List (Middleware σ α))
    (store : Store σ α ρ) :
    (∀ a : α, (applyMiddleware mws store).2.dispatch Phase.constructing a =
      .error .dispatchWhileConstructing)
    ∧ (applyMiddleware mws store).1.dispatch =
        composeFns (mws.map (fun m => m (applyMiddleware mws store).2))
          store.dispatch
    ∧ (∀ a : α,
        (applyMiddleware mws store).2.dispatch
            (Phase.done (applyMiddleware mws store).1.dispatch) a =
          (applyMiddleware mws store).1.dispatch a) := by
  exact ⟨fun a => rfl, rfl, fun a => rfl⟩

/-- C10. The store returned by the enhancer is the base store with only
`dispatch` replaced: `getState` and all remaining fields are the base
store's own, and `dispatch` is the composed chain applied to the base
dispatch. -/
theorem c10_store_frame {σ α ρ : Type} (mws : List (Middleware σ α))
    (store : Store σ α ρ) :
    (applyMiddleware mws store).1.getState = store.getState
    ∧ (applyMiddleware mws store).1.rest = store.rest
    ∧ (applyMiddleware mws store).1.dispatch =
        composeFns (mws.map (fun m => m (applyMiddleware mws store).2))
          store.dispatch := by
  exact ⟨rfl, rfl, rfl⟩

end Redux
